import Mathlib

/-!
Verification development for the pydis execution engine
(`src/core/executor.py`), the bytecode disassembler
(`src/core/disassembler.py`) and the controller's line-to-instruction
mapping (`src/gui/app.py`).

The Python source is shallowly embedded:

* values that appear in the target program are modelled by `Value`
  (ints and int lists, with `reprV` playing the role of `repr`);
* a source text is modelled at the compiler boundary by `Source`:
  its list of executable statements plus the compile outcome
  (`compile()` either succeeds or raises a `SyntaxError`-like error
  carrying a located message, as CPython's `compile` does for source
  text that fails to translate);
* `Executor.execute_code` (batch mode) is embedded as the pure function
  `execute_code`, with the `try/except/finally` structure of lines 52-77
  of executor.py made explicit;
* the stepping engine (`execute_step_by_step`, `_run_with_trace`,
  `_trace_function`, `step`, `get_current_state`) is embedded as a
  small-step interleaving model: `EState` is the shared engine state,
  `wstep` performs one micro-step of the worker thread, `cstep` one
  micro-step of a controller `step()` call, and a schedule (a list of
  `Act`) decides which thread moves.  `threading.Event` is a `Bool`
  (set/clear/wait with the usual non-consuming semantics), and each
  Python statement of the engine is one atomic micro-step.
  Because `sys.settrace` is only removed in the `finally` block,
  `traceback.print_exc` on the compile-failure path runs with the trace
  hook still installed: its line events are modelled as hook suspensions
  (the `tb…` worker locations), with the interpreter-version-dependent
  event count and line numbers represented by the stand-ins
  `tbLineCount` and `tracebackModuleLine`, and its stream writes
  modelled as completing with the last traced line.  Target-program
  statements are abstracted to their line
  numbers inside the stepping model (their effects are modelled in the
  batch interpreter, and the per-record field construction of
  `_trace_function` is modelled separately by `mkStepRecord`).
  `stop_execution` is not part of the modelled controller: the claims
  settled against this model quantify over step()/snapshot-driven
  sessions only.

The fields `traceLenAtCall` and `stepsReturned` of `EState` are ghost
instrumentation: they record the trace length observed when a `step()`
call begins and the number of completed `step()` calls; no transition
reads them.
-/

/-- A runtime value of the target program: an int or a (mutable) list of
ints.  `reprV` is Python's `repr` on these values. -/
inductive Value where
  | vint (n : Int)
  | vlistI (xs : List Int)
deriving DecidableEq

def reprV : Value → String
  | .vint n => toString n
  | .vlistI xs => "[" ++ String.intercalate ", " (xs.map toString) ++ "]"

/-- The action performed by one executable statement of the target
program: bind a name, print a line to stdout, raise, or do nothing. -/
inductive BAct where
  | assign (n : String) (v : Value)
  | printOut (t : String)
  | raiseErr (msg : String)
  | pass
deriving DecidableEq

/-- One executable statement: its source line number and its action. -/
structure Stmt where
  line : Nat
  act : BAct
deriving DecidableEq

instance : Inhabited Stmt := ⟨⟨0, .pass⟩⟩

/-- A compile failure, as raised by `compile(source, "<string>", "exec")`:
a message plus the offending line. -/
structure CompileErr where
  msg : String
  line : Nat
deriving DecidableEq

/-- Python's `str(e)` for a compile failure: CPython formats a
`SyntaxError` as `msg (<string>, line N)`. -/
def strOfCompileErr (e : CompileErr) : String :=
  e.msg ++ " (<string>, line " ++ toString e.line ++ ")"

/-- A source text, characterised at the compiler boundary: the statement
list it compiles to, or the compile failure `compile()` raises for it. -/
structure Source where
  stmts : List Stmt
  compileErr : Option CompileErr
deriving DecidableEq

/-- The text `traceback.print_exc` writes for a failure with message
`msg` (the formatted failure trace). -/
def formatTraceback (msg : String) : String :=
  "Traceback (most recent call last):\n  File \"<string>\"\n" ++ msg ++ "\n"

/-! ## Batch execution: `Executor.execute_code` (executor.py lines 38-77) -/

/-- State threaded through `exec`: the locals dict and the captured
stdout text. -/
structure ExecSt where
  locals : List (String × Value)
  out : String
deriving DecidableEq

/-- Dict update with Python semantics: replace in place if the key
exists, else append. -/
def setVar : List (String × Value) → String → Value → List (String × Value)
  | [], n, v => [(n, v)]
  | (k, w) :: t, n, v =>
    if k = n then (k, v) :: t else (k, w) :: setVar t n v

/-- The `exec` of a compiled statement list: runs statements in order,
stopping at the first raise, and returns the final state plus the raised
message if any. -/
def execStmts : List Stmt → ExecSt → ExecSt × Option String
  | [], st => (st, none)
  | stmt :: rest, st =>
    match stmt.act with
    | .assign n v => execStmts rest { st with locals := setVar st.locals n v }
    | .printOut t => execStmts rest { st with out := st.out ++ t ++ "\n" }
    | .pass => execStmts rest st
    | .raiseErr m => (st, some m)

/-- The tuple `execute_code` returns (lines 72-77), plus the executor's
running flag at return time. -/
structure BatchResult where
  locals : List (String × Value)
  stdout : String
  stderr : String
  error : Option String
  is_running : Bool
deriving DecidableEq

/-- The process-wide `sys.stdout` / `sys.stderr` handles, identified by
stream ids. -/
structure Proc where
  out : Nat
  err : Nat
deriving DecidableEq

/-- `Executor.execute_code` (lines 38-77): reset saves the current
process streams (lines 35-36), stdout/stderr are redirected to the
capture buffers (55-56), the source is compiled and executed inside
`try` (59-62), a raised failure is kept and printed to the captured
stderr (63-65), and `finally` restores the process streams (66-69).
Returns the result tuple and the process stream state at return. -/
def execute_code (p : Proc) (src : Source) : BatchResult × Proc :=
  let origOut := p.out
  let origErr := p.err
  let body : ExecSt × Option String :=
    match src.compileErr with
    | some e => (⟨[], ""⟩, some (strOfCompileErr e))
    | none => execStmts src.stmts ⟨[], ""⟩
  let res : BatchResult :=
    { locals := body.1.locals
      stdout := body.1.out
      stderr := match body.2 with
        | some m => formatTraceback m
        | none => ""
      error := body.2
      is_running := false }
  (res, { out := origOut, err := origErr })

def isRaise (b : BAct) : Bool :=
  match b with
  | .raiseErr _ => true
  | _ => false

/-- The statements before the first raising statement: the part of the
program whose bindings exist "up to the point of failure". -/
def cleanPart (l : List Stmt) : List Stmt :=
  l.takeWhile (fun s => !isRaise s.act)

/-! ## The stepping engine: worker/controller interleaving model -/

/-- Program counter of the worker thread running `_run_with_trace`
(executor.py lines 126-154) with `_trace_function` (79-105) installed.
Each constructor is one atomic Python statement of the engine; `k` is
the index of the statement of the target program the hook is acting
for.  The `tb…` locations are the hook firing inside the
traceback-printing machinery on the compile-failure path, where the
trace hook is still installed; `j` indexes its traced line events. -/
inductive WLoc where
  | notStarted
  | redirect
  | settraceOn
  | compileSrc
  | hookEntry (k : Nat)
  | hookAppend (k : Nat)
  | hookClearStep (k : Nat)
  | hookSetComplete (k : Nat)
  | hookWait (k : Nat)
  | hookClearComplete (k : Nat)
  | runStmt (k : Nat)
  | runRest
  | tbHookEntry (j : Nat)
  | tbHookAppend (j : Nat)
  | tbHookClearStep (j : Nat)
  | tbHookSetComplete (j : Nat)
  | tbHookWait (j : Nat)
  | tbHookClearComplete (j : Nat)
  | tbRunLine (j : Nat)
  | tbRest
  | finallyUntrace
  | finallyRestore
  | finallySetRunningFalse
  | finallySetComplete
  | wdone
deriving DecidableEq

/-- How an in-flight `step()` call ended: it observed the completion
event, it was a no-op because `_is_running` was false, or its bounded
wait timed out. -/
inductive CDone where
  | ok
  | noop
  | timeout
deriving DecidableEq

/-- Program counter of the controller thread inside `Executor.step`
(lines 156-160). -/
inductive CLoc where
  | cidle
  | sCheck
  | sSetEvent
  | sWait
  | cdone (r : CDone)
deriving DecidableEq

/-- Stream ids of the engine's capture buffers. -/
def capOutId : Nat := 1000

def capErrId : Nat := 1001

/-- The shared state of one `Executor` during a stepping run, plus the
process stream handles.  `traceLenAtCall` and `stepsReturned` are ghost
instrumentation (never read by a transition). -/
structure EState where
  wloc : WLoc
  cloc : CLoc
  step_event : Bool
  step_complete_event : Bool
  is_running : Bool
  should_stop : Bool
  thread_started : Bool
  trace : List Nat
  capturedOut : String
  capturedErr : String
  sysOut : Nat
  sysErr : Nat
  origOut : Nat
  origErr : Nat
  traceLenAtCall : Nat
  stepsReturned : Nat
deriving DecidableEq

/-- The line number of statement `k` of the compiled source. -/
def lineAt (src : Source) (k : Nat) : Nat :=
  (src.stmts.getD k default).line

/-- `Executor.execute_step_by_step` (lines 107-124): `reset()` saves the
current process streams and clears all state, `_is_running` is set, and
the worker thread is started unconditionally (there is no compile check
before the thread starts).  Returns the state right after
`thread.start()`: the worker is about to run the body of
`_run_with_trace`. -/
def startStepping (out err : Nat) (src : Source) : EState :=
  { wloc := .redirect
    cloc := .cidle
    step_event := false
    step_complete_event := false
    is_running := true
    should_stop := false
    thread_started := true
    trace := []
    capturedOut := ""
    capturedErr := ""
    sysOut := out
    sysErr := err
    origOut := out
    origErr := err
    traceLenAtCall := 0
    stepsReturned := 0 }

/-- The traceback-printing machinery (`traceback.print_exc` and its
callees) executes some positive, interpreter-version-dependent number of
traced line events while the worker's trace hook is still installed; the
model fixes a representative count.  No theorem depends on its value,
only on its positivity. -/
def tbLineCount : Nat := 4

/-- Stand-in for the traceback-module source line recorded by the hook
at the `j`-th traced line event inside `traceback.print_exc`; the
actual values are interpreter-version dependent. -/
def tracebackModuleLine (j : Nat) : Nat := j

/-- One micro-step of the worker thread.  Mirrors `_run_with_trace`
(lines 126-154) and the `line`-event body of `_trace_function`
(lines 81-103): redirect streams, install the trace, compile, then for
each statement the hook checks `_should_stop`, appends the step record,
clears `_step_event`, sets `_step_complete_event`, waits on
`_step_event`, clears `_step_complete_event`, and lets the statement
run; on a compile failure `traceback.print_exc` runs under the
still-installed hook, so each of its traced line events executes the
same hook body — appending a record for a traceback-internal line and
blocking on the proceed event — with its stream writes completing at
the last traced line (should the stop flag be observed, the rest of the
printing runs untraced); the `finally` block restores the streams,
clears `_is_running` and sets `_step_complete_event`.  A blocked (or
finished) worker does not move. -/
def wstep (src : Source) (s : EState) : EState :=
  match s.wloc with
  | .notStarted => s
  | .redirect => { s with sysOut := capOutId, sysErr := capErrId, wloc := .settraceOn }
  | .settraceOn => { s with wloc := .compileSrc }
  | .compileSrc =>
    match src.compileErr with
    | some _ => { s with wloc := .tbHookEntry 0 }
    | none =>
      if src.stmts.isEmpty then { s with wloc := .finallyUntrace }
      else { s with wloc := .hookEntry 0 }
  | .hookEntry k =>
    if s.should_stop then { s with wloc := .runRest }
    else { s with wloc := .hookAppend k }
  | .hookAppend k => { s with trace := s.trace ++ [lineAt src k], wloc := .hookClearStep k }
  | .hookClearStep k => { s with step_event := false, wloc := .hookSetComplete k }
  | .hookSetComplete k => { s with step_complete_event := true, wloc := .hookWait k }
  | .hookWait k =>
    if s.step_event then { s with wloc := .hookClearComplete k } else s
  | .hookClearComplete k => { s with step_complete_event := false, wloc := .runStmt k }
  | .runStmt k =>
    if k + 1 < src.stmts.length then { s with wloc := .hookEntry (k + 1) }
    else { s with wloc := .finallyUntrace }
  | .runRest => { s with wloc := .finallyUntrace }
  | .tbHookEntry j =>
    if s.should_stop then { s with wloc := .tbRest }
    else { s with wloc := .tbHookAppend j }
  | .tbHookAppend j =>
    { s with trace := s.trace ++ [tracebackModuleLine j], wloc := .tbHookClearStep j }
  | .tbHookClearStep j => { s with step_event := false, wloc := .tbHookSetComplete j }
  | .tbHookSetComplete j => { s with step_complete_event := true, wloc := .tbHookWait j }
  | .tbHookWait j =>
    if s.step_event then { s with wloc := .tbHookClearComplete j } else s
  | .tbHookClearComplete j => { s with step_complete_event := false, wloc := .tbRunLine j }
  | .tbRunLine j =>
    if j + 1 < tbLineCount then { s with wloc := .tbHookEntry (j + 1) }
    else
      match src.compileErr with
      | some e =>
        { s with capturedErr := s.capturedErr ++ formatTraceback (strOfCompileErr e),
                 wloc := .finallyUntrace }
      | none => { s with wloc := .finallyUntrace }
  | .tbRest =>
    match src.compileErr with
    | some e =>
      { s with capturedErr := s.capturedErr ++ formatTraceback (strOfCompileErr e),
               wloc := .finallyUntrace }
    | none => { s with wloc := .finallyUntrace }
  | .finallyUntrace => { s with wloc := .finallyRestore }
  | .finallyRestore => { s with sysOut := s.origOut, sysErr := s.origErr, wloc := .finallySetRunningFalse }
  | .finallySetRunningFalse => { s with is_running := false, wloc := .finallySetComplete }
  | .finallySetComplete => { s with step_complete_event := true, wloc := .wdone }
  | .wdone => s

/-- One micro-step of the controller thread driving `Executor.step`
(lines 156-160): from idle it enters `step()` (recording, as ghost data,
the trace length at call start), checks `_is_running`, sets
`_step_event`, then waits on `_step_complete_event`; the wait completes
as soon as the event is set — note that `step()` never clears the
completion event before waiting.  From `cdone` the call has returned and
the controller is idle again. -/
def cstep (s : EState) : EState :=
  match s.cloc with
  | .cidle => { s with cloc := .sCheck, traceLenAtCall := s.trace.length }
  | .sCheck =>
    if s.is_running then { s with cloc := .sSetEvent }
    else { s with cloc := .cdone .noop, stepsReturned := s.stepsReturned + 1 }
  | .sSetEvent => { s with step_event := true, cloc := .sWait }
  | .sWait =>
    if s.step_complete_event then
      { s with cloc := .cdone .ok, stepsReturned := s.stepsReturned + 1 }
    else s
  | .cdone _ => { s with cloc := .cidle }

/-- The bounded wait of `step()` elapsing: only possible while the
controller is blocked at the wait with the completion event unset
(`Event.wait` returns true whenever the event is set at or before the
deadline). -/
def ctimeout (s : EState) : EState :=
  match s.cloc with
  | .sWait =>
    if s.step_complete_event then s
    else { s with cloc := .cdone .timeout, stepsReturned := s.stepsReturned + 1 }
  | _ => s

/-- A scheduler choice: run the worker one micro-step, run the
controller one micro-step, or let the controller's bounded wait time
out. -/
inductive Act where
  | wrk
  | ctl
  | ctlT
deriving DecidableEq

def act (src : Source) (s : EState) : Act → EState
  | .wrk => wstep src s
  | .ctl => cstep s
  | .ctlT => ctimeout s

/-- Run the engine under a schedule. -/
def runA (src : Source) (s : EState) (sched : List Act) : EState :=
  sched.foldl (act src) s

/-- What `Executor.get_current_state` (lines 171-186) exposes of the
stepping model's state: the running flag, the captured stream values and
a copy of the execution trace.  (The locals/globals components of the
real snapshot are value copies of dicts; their sharing behaviour is
modelled separately by the heap model below.) -/
structure Snap where
  is_running : Bool
  stdout : String
  stderr : String
  trace : List Nat
deriving DecidableEq

def get_current_state (s : EState) : Snap :=
  { is_running := s.is_running
    stdout := s.capturedOut
    stderr := s.capturedErr
    trace := s.trace }

/-! ## Quiescent scheduling: run calls with the worker settling between them -/

/-- Let the worker run a burst of 12 micro-steps: enough to go from any
release to its next blocking point (a blocked or finished worker just
stays put for the remaining steps). -/
def wrun (src : Source) (s : EState) : EState :=
  wstep src <| wstep src <| wstep src <| wstep src <| wstep src <| wstep src <|
  wstep src <| wstep src <| wstep src <| wstep src <| wstep src <| wstep src s

/-- One complete `step()` call by the controller: enter, check the flag,
set the event, wait, return. -/
def ctlCall (s : EState) : EState :=
  cstep <| cstep <| cstep <| cstep <| cstep s

/-- A `step()` call followed by worker quiescence. -/
def stepCallQ (src : Source) (s : EState) : EState :=
  wrun src (ctlCall s)

/-- The quiescent execution: `startStepping`, let the worker settle,
then `n` settled `step()` calls. -/
def quiescentExec (out err : Nat) (src : Source) : Nat → EState
  | 0 => wrun src (startStepping out err src)
  | n + 1 => stepCallQ src (quiescentExec out err src n)

/-- The engine state between quiescent calls `k` and `k + 1` (for a
compiling source with at least `k + 1` statements): the worker is
suspended inside the hook before statement `k + 1`, having appended the
records of statements `0..k`. -/
def midState (out err : Nat) (src : Source) (k : Nat) : EState :=
  { wloc := .hookWait k
    cloc := .cidle
    step_event := false
    step_complete_event := true
    is_running := true
    should_stop := false
    thread_started := true
    trace := (src.stmts.map Stmt.line).take (k + 1)
    capturedOut := ""
    capturedErr := ""
    sysOut := capOutId
    sysErr := capErrId
    origOut := out
    origErr := err
    traceLenAtCall := k
    stepsReturned := k }

/-- The engine state after the final quiescent call of an
`N`-statement compiling source: the worker has exited, the streams are
restored, the full trace is recorded. -/
def endState (out err : Nat) (src : Source) : EState :=
  { wloc := .wdone
    cloc := .cidle
    step_event := true
    step_complete_event := true
    is_running := false
    should_stop := false
    thread_started := true
    trace := src.stmts.map Stmt.line
    capturedOut := ""
    capturedErr := ""
    sysOut := out
    sysErr := err
    origOut := out
    origErr := err
    traceLenAtCall := src.stmts.length
    stepsReturned := src.stmts.length }

/-! ## Heap model for snapshot copying (`get_current_state`, lines 171-186) -/

/-- An engine's variable bindings with object identity made explicit: a
store of heap objects and the locals dict mapping names to references
into it.  `self.locals` is the very dict `exec` mutates; its values are
live objects. -/
structure HeapEngine where
  store : List Value
  varRefs : List (String × Nat)
deriving DecidableEq

/-- `self.locals.copy()` as performed by `get_current_state` (line 182):
a shallow copy — the name-to-reference pairs are copied, the referenced
objects are not. -/
def snapLocalsCopy (e : HeapEngine) : List (String × Nat) :=
  e.varRefs

/-- Reading name `n` through a (copied) locals dict against the current
store, rendered in display form. -/
def derefDisplay (refs : List (String × Nat)) (store : List Value) (n : String) :
    Option String :=
  match refs.lookup n with
  | some r => (store.get? r).map reprV
  | none => none

/-- In-place mutation of the object at reference `r` (e.g.
`xs.append(…)` executed by the target program after a snapshot). -/
def mutateRef (e : HeapEngine) (r : Nat) (v : Value) : HeapEngine :=
  { e with store := e.store.set r v }

def setRef : List (String × Nat) → String → Nat → List (String × Nat)
  | [], n, r => [(n, r)]
  | (k, w) :: t, n, r =>
    if k = n then (k, r) :: t else (k, w) :: setRef t n r

/-- Rebinding a name in the live locals dict (e.g. `x = other` executed
after a snapshot). -/
def rebindVar (e : HeapEngine) (n : String) (r : Nat) : HeapEngine :=
  { e with varRefs := setRef e.varRefs n r }

/-! ## Line-to-instruction mapping (`app.py` lines 454-491) -/

/-- A disassembled instruction as the bytecode view stores it: its
offset and the source line it starts, if any. -/
structure Instr where
  offset : Nat
  starts_line : Option Nat
deriving DecidableEq

/-- The body of the second loop of `_highlight_bytecode_for_line`
(lines 484-488): track the greatest starting line seen so far that is
positive and at most the reported line, and the offset of the first
instruction that reached it. -/
def highlightScan (line : Nat) (acc : Nat × Option Nat) (i : Instr) : Nat × Option Nat :=
  match i.starts_line with
  | some sl => if acc.1 < sl ∧ sl ≤ line then (sl, some i.offset) else acc
  | none => acc

/-- `PyDisApp._highlight_bytecode_for_line` (lines 454-491) as a pure
function from the static instruction list and the reported line to the
highlighted offset (`none` = nothing highlighted): empty list guard
(468-469), first loop looking for an instruction starting exactly at the
line (472-477), else the scan for the closest preceding starting line
(480-491). -/
def highlight_bytecode_for_line (instrs : List Instr) (line : Nat) : Option Nat :=
  if instrs.isEmpty then none
  else
    match instrs.find? (fun i => i.starts_line == some line) with
    | some i => some i.offset
    | none => (instrs.foldl (highlightScan line) (0, none)).2

/-- Reference behaviour written from the claim's words (with the
tolerance bound removed, as the counterexample forces): the first
instruction of the nearest preceding positive starting line — the pair
(starting line, offset of its first instruction) with the greatest
starting line that is positive and at most the reported line. -/
def nearestPreceding : List Instr → Nat → Option (Nat × Nat)
  | [], _ => none
  | i :: rest, line =>
    let r := nearestPreceding rest line
    match i.starts_line with
    | some sl =>
      if 0 < sl ∧ sl ≤ line then
        match r with
        | none => some (sl, i.offset)
        | some (m, o) => if m ≤ sl then some (sl, i.offset) else some (m, o)
      else r
    | none => r

/-- The mapping as the claim describes it, minus the window: exact match
on "statement starts at this line" first, else the first instruction of
the nearest preceding starting line, at any distance. -/
def specHighlight (instrs : List Instr) (line : Nat) : Option Nat :=
  match instrs.find? (fun i => i.starts_line == some line) with
  | some i => some i.offset
  | none => (nearestPreceding instrs line).map (fun p => p.2)

/-- The starting lines that are candidates for "preceding line within a
tolerance window of `w`": positive, at most the reported line, and at
distance at most `w` from it. -/
def windowCandidates (w : Nat) (instrs : List Instr) (line : Nat) : List Nat :=
  (instrs.filterMap Instr.starts_line).filter
    (fun sl => decide (0 < sl) && decide (sl ≤ line) && decide (line ≤ sl + w))

/-- The mapping as the claim literally states it, with a tolerance
window of size `w`: exact match first, else the first instruction of the
nearest preceding starting line no farther than `w` lines back. -/
def specHighlightW (w : Nat) (instrs : List Instr) (line : Nat) : Option Nat :=
  match instrs.find? (fun i => i.starts_line == some line) with
  | some i => some i.offset
  | none =>
    match (windowCandidates w instrs line).max? with
    | some m => (instrs.find? (fun i => i.starts_line == some m)).map Instr.offset
    | none => none

/-! ## Step record construction (`_trace_function`, lines 89-97) -/

/-- Python's `name.startswith('_')`: the first character is an
underscore.  (Defined via the character list so that it evaluates inside
the kernel.) -/
def startsUnderscore (s : String) : Bool := s.data.head? == some '_'

/-- The frame data the trace hook sees: code location, function name and
the live local/global bindings. -/
structure Frame where
  filename : String
  lineno : Nat
  funcName : String
  locals : List (String × Value)
  globals : List (String × Value)
deriving DecidableEq

/-- A full step record as `_trace_function` appends it. -/
structure StepRecord where
  event : String
  filename : String
  lineno : Nat
  function : String
  locals : List (String × String)
  globals : List (String × String)
deriving DecidableEq

/-- The record built by `_trace_function` for a `line` event
(lines 89-97): every local binding is recorded as its `repr`, the
globals are filtered to drop `__builtins__` and every name beginning
with an underscore before being recorded as `repr`s. -/
def mkStepRecord (f : Frame) : StepRecord :=
  { event := "line"
    filename := f.filename
    lineno := f.lineno
    function := f.funcName
    locals := f.locals.map (fun p => (p.1, reprV p.2))
    globals := (f.globals.filter
        (fun p => p.1 != "__builtins__" && !(startsUnderscore p.1))).map
      (fun p => (p.1, reprV p.2)) }

/-! ## Disassembler (`disassembler.py` lines 17-41) -/

/-- A stand-in for the text `dis.dis` renders for a compiled unit. -/
def disText (src : Source) : String :=
  String.intercalate "\n"
    (src.stmts.map (fun s => toString s.line))

/-- `Disassembler.disassemble_code` (lines 17-41): compile inside `try`;
on success return the rendered disassembly and no error; on a compile
failure return `str(e)` and the exception.  The function is total: no
failure propagates to the caller. -/
def disassemble_code (src : Source) : String × Option CompileErr :=
  match src.compileErr with
  | none => (disText src, none)
  | some e => (strOfCompileErr e, some e)

/-! ## Invariant bookkeeping for the stepping model -/

/-- Number of step records the worker has appended, read off its program
counter (for a compiling run of an `N`-statement source that is never
stopped). -/
def acnt (N : Nat) : WLoc → Nat
  | .hookEntry k => k
  | .hookAppend k => k
  | .hookClearStep k => k + 1
  | .hookSetComplete k => k + 1
  | .hookWait k => k + 1
  | .hookClearComplete k => k + 1
  | .runStmt k => k + 1
  | .finallyUntrace => N
  | .finallyRestore => N
  | .finallySetRunningFalse => N
  | .finallySetComplete => N
  | .wdone => N
  | _ => 0

/-- Worker locations reachable in a compiling, never-stopped stepping
run of an `N`-statement source, with the hook index in range. -/
def goodW (N : Nat) : WLoc → Prop
  | .notStarted => False
  | .runRest => False
  | .tbHookEntry _ => False
  | .tbHookAppend _ => False
  | .tbHookClearStep _ => False
  | .tbHookSetComplete _ => False
  | .tbHookWait _ => False
  | .tbHookClearComplete _ => False
  | .tbRunLine _ => False
  | .tbRest => False
  | .hookEntry k => k < N
  | .hookAppend k => k < N
  | .hookClearStep k => k < N
  | .hookSetComplete k => k < N
  | .hookWait k => k < N
  | .hookClearComplete k => k < N
  | .runStmt k => k < N
  | _ => True

/-- Inductive invariant of the stepping run: the stop flag stays clear,
the worker location is sane, the trace is exactly the records appended
so far (a prefix of the program's line list in execution order), and the
completion event is only ever observed set after at least one record was
appended — likewise for a `step()` call that returned by observing it. -/
def InvC1 (src : Source) (s : EState) : Prop :=
  s.should_stop = false ∧
  goodW src.stmts.length s.wloc ∧
  s.trace = (src.stmts.map Stmt.line).take (acnt src.stmts.length s.wloc) ∧
  (s.step_complete_event = true → 1 ≤ acnt src.stmts.length s.wloc) ∧
  (s.cloc = .cdone .ok → 1 ≤ acnt src.stmts.length s.wloc)

/-- Worker locations at which the stream restoration of the `finally`
block (lines 151-152) has already run. -/
def pastRestore : WLoc → Bool
  | .finallySetRunningFalse => true
  | .finallySetComplete => true
  | .wdone => true
  | _ => false

/-- Invariant for stream restoration: the saved originals never change,
and past the restore point the process streams equal them. -/
def restoreInv (out err : Nat) (s : EState) : Prop :=
  s.origOut = out ∧ s.origErr = err ∧
  (pastRestore s.wloc = true → s.sysOut = out ∧ s.sysErr = err)

/-! ## The claims, stated as written -/

/-- Claim C1 as stated: a `step()` call that returns without timing out
does so only after the worker has appended the StepRecord for the line
it is now suspended at — a record new to this call — and signalled
"suspended"; hence the trace at return ends with the record of the
worker's current suspension point. -/
def claimC1 : Prop :=
  ∀ (out err : Nat) (src : Source) (sched : List Act) (s : EState),
    src.compileErr = none → src.stmts ≠ [] →
    s = runA src (startStepping out err src) sched →
    s.cloc = .cdone .ok →
    ∃ k, s.wloc = .hookWait k ∧ s.traceLenAtCall < s.trace.length ∧
      s.trace.getLast? = some (lineAt src k)

/-- Claim C2 as stated: a source that fails to compile never starts a
worker thread, and the captured streams and trace stay empty however the
engine is scheduled afterwards. -/
def claimC2 : Prop :=
  ∀ (out err : Nat) (src : Source), src.compileErr ≠ none →
    (startStepping out err src).thread_started = false ∧
    ∀ (sched : List Act) (s : EState),
      s = runA src (startStepping out err src) sched →
      s.capturedErr = "" ∧ s.trace = []

/-- Claim C3 as stated: for a compiling, branch-free program (strictly
increasing statement lines), any session in which exactly `N` `step()`
calls have completed leaves a trace of length `N` with non-decreasing
lines and the engine reporting not-running. -/
def claimC3 : Prop :=
  ∀ (out err : Nat) (src : Source) (sched : List Act) (s : EState),
    src.compileErr = none →
    (src.stmts.map Stmt.line).Chain' (· < ·) →
    s = runA src (startStepping out err src) sched →
    s.stepsReturned = src.stmts.length →
    s.cloc = .cidle →
    s.trace.length = src.stmts.length ∧ s.trace.Chain' (· ≤ ·) ∧
      s.is_running = false

/-- Claim C6 as stated: a snapshot's locals are display values, so no
engine-internal mutation after the snapshot is observable through it —
reading any name through the snapshot gives the same display text before
and after a mutation of the store. -/
def claimC6 : Prop :=
  ∀ (e : HeapEngine) (r : Nat) (v : Value) (n : String),
    derefDisplay (snapLocalsCopy e) (mutateRef e r v).store n =
    derefDisplay (snapLocalsCopy e) e.store n

/-- Claim C7 as stated: for some tolerance window `w`, the controller's
mapping highlights the exact match, else the first instruction of the
nearest preceding starting line within `w` lines. -/
def claimC7 : Prop :=
  ∃ w : Nat, ∀ (instrs : List Instr) (line : Nat),
    highlight_bytecode_for_line instrs line = specHighlightW w instrs line

/-- Claim C8 as stated: two `currentSnapshot()` calls with no
intervening `step()`/`stop()` — that is, separated only by worker
activity — return equal results, from any reachable state. -/
def claimC8 : Prop :=
  ∀ (out err : Nat) (src : Source) (sched tl : List Act),
    (∀ a ∈ tl, a = Act.wrk) →
    get_current_state (runA src (runA src (startStepping out err src) sched) tl) =
    get_current_state (runA src (startStepping out err src) sched)

/-! ## Concrete inputs used by counterexamples and witnesses -/

/-- A two-statement, branch-free, compiling source. -/
def twoLineSrc : Source := ⟨[⟨1, .pass⟩, ⟨2, .pass⟩], none⟩

/-- A source that fails to compile. -/
def badSrc : Source := ⟨[], some ⟨"invalid syntax", 1⟩⟩

/-- A source whose execution binds `x` and then raises. -/
def faultSrc : Source :=
  ⟨[⟨1, .assign "x" (.vint 5)⟩,
    ⟨2, .raiseErr "ZeroDivisionError: division by zero"⟩,
    ⟨3, .assign "y" (.vint 7)⟩], none⟩

def procA : Proc := ⟨7, 8⟩

/-- Schedule for the C1 counterexample: the worker suspends at its first
line, the controller enters `step()` and sets the proceed event, the
worker wakes but is pre-empted mid-hook, and the controller's wait
observes the stale completion event. -/
def schedA : List Act :=
  List.replicate 7 .wrk ++ List.replicate 3 .ctl ++ [.wrk, .ctl]

/-- Schedule for the C3 counterexample: the worker suspends once, then
two complete `step()` calls run back to back with the worker never
scheduled; both return by observing the stale completion event. -/
def schedB : List Act := List.replicate 7 .wrk ++ List.replicate 10 .ctl

/-- Schedule reaching a state in which a `step()` call has just returned
without timing out. -/
def schedC : List Act := List.replicate 7 .wrk ++ List.replicate 4 .ctl

/-- A reachable state with the worker suspended in the hook (blocked on
the proceed event). -/
def suspendedSt : EState :=
  runA twoLineSrc (startStepping 0 1 twoLineSrc) (List.replicate 7 .wrk)

/-- One controller `step()` call followed by a worker burst: releases
the worker from one suspension and lets it settle at the next. -/
def drive : List Act := List.replicate 5 .ctl ++ List.replicate 12 .wrk

/-- A schedule driving a compile-failure worker through every
traceback-printing suspension (`tbLineCount` of them) to exit. -/
def schedTb : List Act :=
  List.replicate 7 Act.wrk ++ drive ++ drive ++ drive ++ drive

/-- A heap engine whose single local `x` is bound to a mutable list. -/
def heapE0 : HeapEngine := ⟨[.vlistI [1]], [("x", 0)]⟩

/-- A frame with an underscore-prefixed local and filtered globals. -/
def frameA : Frame :=
  ⟨"<string>", 3, "<module>",
   [("_hidden", .vint 1), ("x", .vint 2)],
   [("__builtins__", .vint 0), ("_priv", .vint 3), ("g", .vint 9)]⟩

/-! ## Theorems -/

/-- The batch interpreter stops at the first raise: on a raising run the
final state is the state after the raise-free part of the program. -/
theorem execStmts_raise_state (l : List Stmt) (st : ExecSt) (m : String)
    (h : (execStmts l st).2 = some m) :
    (execStmts l st).1 = (execStmts (cleanPart l) st).1 := by
  induction l generalizing st with
  | nil => simp [execStmts] at h
  | cons stmt rest ih =>
    cases hact : stmt.act with
    | assign n v =>
      simp [execStmts, hact] at h ⊢
      simp [cleanPart, List.takeWhile_cons, isRaise, hact, execStmts]
      exact ih _ h
    | printOut t =>
      simp [execStmts, hact] at h ⊢
      simp [cleanPart, List.takeWhile_cons, isRaise, hact, execStmts]
      exact ih _ h
    | pass =>
      simp [execStmts, hact] at h ⊢
      simp [cleanPart, List.takeWhile_cons, isRaise, hact, execStmts]
      exact ih _ h
    | raiseErr m2 =>
      simp [cleanPart, List.takeWhile_cons, isRaise, hact, execStmts]

/-- C4: for every program whose execution raises an unhandled fault,
`execute_code` returns a non-null error, its stderr is the formatted
failure trace, its locals are the bindings that existed up to the point
of failure, and the engine reports not-running when the call returns. -/
theorem c4_batch_fault (p : Proc) (src : Source) (m : String)
    (hc : src.compileErr = none)
    (hr : (execStmts src.stmts ⟨[], ""⟩).2 = some m) :
    ((execute_code p src).1.error = some m) ∧
    ((execute_code p src).1.stderr = formatTraceback m) ∧
    ((execute_code p src).1.locals =
      (execStmts (cleanPart src.stmts) ⟨[], ""⟩).1.locals) ∧
    ((execute_code p src).1.is_running = false) := by
  have hloc := execStmts_raise_state src.stmts ⟨[], ""⟩ m hr
  refine ⟨?_, ?_, ?_, rfl⟩
  · simp [execute_code, hc, hr]
  · simp [execute_code, hc, hr]
  · simp [execute_code, hc, hloc]

/-- C4 witness: the theorem applied to a concrete raising program. -/
theorem c4_batch_fault_witness :
    ((execute_code procA faultSrc).1.error =
      some "ZeroDivisionError: division by zero") ∧
    ((execute_code procA faultSrc).1.stderr =
      formatTraceback "ZeroDivisionError: division by zero") ∧
    ((execute_code procA faultSrc).1.locals =
      (execStmts (cleanPart faultSrc.stmts) ⟨[], ""⟩).1.locals) ∧
    ((execute_code procA faultSrc).1.is_running = false) :=
  c4_batch_fault procA faultSrc "ZeroDivisionError: division by zero"
    rfl (by decide)

/-- C10: for every source text that fails to compile,
`disassemble_code` returns the failure's (non-empty) message string as
its first component and the exception as its second. -/
theorem c10_disassemble_error (src : Source) (e : CompileErr)
    (h : src.compileErr = some e) :
    (disassemble_code src).1 = strOfCompileErr e ∧
    (disassemble_code src).1 ≠ "" ∧
    (disassemble_code src).2 = some e := by
  refine ⟨by simp [disassemble_code, h], ?_, by simp [disassemble_code, h]⟩
  simp only [disassemble_code, h]
  intro hempty
  have hlen := congrArg String.length hempty
  have h17 : (" (<string>, line " : String).length = 17 := rfl
  have h1 : (")" : String).length = 1 := rfl
  have h0 : ("" : String).length = 0 := rfl
  simp only [strOfCompileErr, String.length_append, h17, h1, h0] at hlen
  omega

/-- C10 witness: the theorem applied to a concrete failing source. -/
theorem c10_disassemble_error_witness :
    (disassemble_code badSrc).1 = strOfCompileErr ⟨"invalid syntax", 1⟩ ∧
    (disassemble_code badSrc).1 ≠ "" ∧
    (disassemble_code badSrc).2 = some ⟨"invalid syntax", 1⟩ :=
  c10_disassemble_error badSrc ⟨"invalid syntax", 1⟩ rfl

/-- C9: every step record filters only its globals — dropping
`__builtins__` and every underscore-prefixed name — while its locals are
unfiltered: every local binding of the frame, underscore-prefixed ones
included, is recorded as its `repr` string. -/
theorem c9_record_filtering (f : Frame) :
    ((mkStepRecord f).locals.length = f.locals.length) ∧
    (∀ k v, (k, v) ∈ f.locals → (k, reprV v) ∈ (mkStepRecord f).locals) ∧
    (∀ q ∈ (mkStepRecord f).globals,
      q.1 ≠ "__builtins__" ∧ startsUnderscore q.1 = false) ∧
    (∀ k v, (k, v) ∈ f.globals → k ≠ "__builtins__" →
      startsUnderscore k = false → (k, reprV v) ∈ (mkStepRecord f).globals) := by
  refine ⟨by simp [mkStepRecord], ?_, ?_, ?_⟩
  · intro k v hkv
    simp only [mkStepRecord, List.mem_map]
    exact ⟨(k, v), hkv, rfl⟩
  · intro q hq
    simp only [mkStepRecord, List.mem_map] at hq
    obtain ⟨p, hp, hpq⟩ := hq
    rw [List.mem_filter] at hp
    have hcond := hp.2
    simp only [Bool.and_eq_true, bne_iff_ne, Bool.not_eq_true'] at hcond
    subst hpq
    exact hcond
  · intro k v hkv hnb hnu
    simp only [mkStepRecord, List.mem_map]
    refine ⟨(k, v), ?_, rfl⟩
    rw [List.mem_filter]
    refine ⟨hkv, ?_⟩
    simp only [Bool.and_eq_true, bne_iff_ne, Bool.not_eq_true']
    exact ⟨hnb, hnu⟩

/-- C9 witness: the theorem applied to a concrete frame with an
underscore-prefixed local and a filtered global. -/
theorem c9_record_filtering_witness :
    ("_hidden", "1") ∈ (mkStepRecord frameA).locals ∧
    ("g", "9") ∈ (mkStepRecord frameA).globals :=
  ⟨(c9_record_filtering frameA).2.1 "_hidden" (.vint 1) (by decide),
   (c9_record_filtering frameA).2.2.2 "g" (.vint 9) (by decide) (by decide) (by decide)⟩

/-- C1 counterexample: under the schedule `schedA` a `step()` call
returns without timing out (it observes the completion event left set by
the worker's previous suspension) while the worker is mid-hook, not
suspended, and no new StepRecord was appended during the call. -/
theorem c1_counterexample : ¬ claimC1 := by
  intro h
  obtain ⟨k, hk, -, -⟩ :=
    h 0 1 twoLineSrc schedA (runA twoLineSrc (startStepping 0 1 twoLineSrc) schedA)
      rfl (by decide) rfl (by decide)
  have hw : (runA twoLineSrc (startStepping 0 1 twoLineSrc) schedA).wloc =
      WLoc.hookClearComplete 0 := by decide
  rw [hw] at hk
  exact WLoc.noConfusion hk

/-- C2 counterexample: for the non-compiling source `badSrc`,
`execute_step_by_step` starts the worker thread anyway (the thread is
started before any compilation is attempted). -/
theorem c2_counterexample : ¬ claimC2 := fun h =>
  absurd ((h 0 1 badSrc (by decide)).1) (by decide)

/-- C3 counterexample: for a two-statement program, two back-to-back
`step()` calls both complete by observing the stale completion event;
the session has `N = 2` completed calls but the trace has length 1 and
the engine still reports running. -/
theorem c3_counterexample : ¬ claimC3 := by
  intro h
  have := (h 0 1 twoLineSrc schedB
    (runA twoLineSrc (startStepping 0 1 twoLineSrc) schedB)
    rfl (by norm_num [twoLineSrc, List.chain'_cons]) rfl (by decide) (by decide)).1
  exact absurd this (by decide)

/-- C6 counterexample: mutating the list bound to `x` after the
snapshot changes what the snapshot displays for `x` — the snapshot's
values are live references, not display values. -/
theorem c6_counterexample : ¬ claimC6 := fun h =>
  absurd (h heapE0 0 (.vlistI [1, 2]) "x") (by decide)

/-- C7 counterexample: no tolerance window matches the code — for any
window `w`, an instruction starting `w + 1` lines before the reported
line is still highlighted by the code but rejected by the windowed
specification. -/
theorem c7_counterexample : ¬ claimC7 := by
  rintro ⟨w, h⟩
  have hinst := h [⟨0, some 1⟩] (w + 2)
  have hlhs : highlight_bytecode_for_line [⟨0, some 1⟩] (w + 2) = some 0 := rfl
  have hrhs : specHighlightW w [⟨0, some 1⟩] (w + 2) = none := by
    have hne : ¬ (w + 2 ≤ 1 + w) := by omega
    simp [specHighlightW, windowCandidates, List.find?, List.filterMap, hne,
      Nat.succ_ne_zero]
  rw [hlhs, hrhs] at hinst
  exact Option.noConfusion hinst

/-- C8 counterexample: two snapshots with no intervening `step()` or
`stop()` differ, because the worker appended its first StepRecord
between them. -/
theorem c8_counterexample : ¬ claimC8 := by
  intro h
  have := h 0 1 twoLineSrc [] (List.replicate 7 .wrk) (by decide)
  exact absurd this (by decide)

/-- C6 amended: the snapshot copies the name-to-value mapping, so
rebinding a name after the snapshot is never observable through it; but
the mapped values are live references, not display values, so in-place
mutation of a mutable value after the snapshot is observable (second
conjunct: a concrete observable mutation). -/
theorem c6_amended :
    (∀ (e : HeapEngine) (n : String) (r : Nat) (m : String),
      derefDisplay (snapLocalsCopy e) (rebindVar e n r).store m =
      derefDisplay (snapLocalsCopy e) e.store m) ∧
    derefDisplay (snapLocalsCopy heapE0) (mutateRef heapE0 0 (.vlistI [1, 2])).store "x" ≠
      derefDisplay (snapLocalsCopy heapE0) heapE0.store "x" :=
  ⟨fun _ _ _ _ => rfl, by decide⟩

/-- C8 amended: `get_current_state` itself never mutates the engine, and
two snapshots with no intervening `step()`/`stop()` are equal provided
the worker is at rest between them — suspended in the hook with the
proceed event clear, or finished.  (While the worker is actively
running, the counterexample shows the two snapshots can differ.) -/
theorem c8_amended (src : Source) (s : EState) (tl : List Act)
    (hw : ∀ a ∈ tl, a = Act.wrk)
    (hs : s.wloc = .wdone ∨ ∃ k, s.wloc = .hookWait k ∧ s.step_event = false) :
    runA src s tl = s ∧ get_current_state (runA src s tl) = get_current_state s := by
  have hfix : wstep src s = s := by
    rcases hs with h | ⟨k, hk, he⟩
    · simp [wstep, h]
    · simp [wstep, hk, he]
  have hrun : ∀ l : List Act, (∀ a ∈ l, a = Act.wrk) → runA src s l = s := by
    intro l
    induction l with
    | nil => intro _; rfl
    | cons a t ih =>
      intro hw2
      have ha := hw2 a (List.mem_cons_self a t)
      subst ha
      simp only [runA, List.foldl]
      rw [show act src s Act.wrk = s from hfix]
      exact ih fun b hb => hw2 b (List.mem_cons_of_mem _ hb)
  exact ⟨hrun tl hw, by rw [hrun tl hw]⟩

/-- C8 amended witness: the theorem applied to a reachable suspended
state and a worker-only schedule. -/
theorem c8_amended_witness :
    runA twoLineSrc suspendedSt [Act.wrk] = suspendedSt ∧
    get_current_state (runA twoLineSrc suspendedSt [Act.wrk]) =
      get_current_state suspendedSt :=
  c8_amended twoLineSrc suspendedSt [Act.wrk] (by decide)
    (Or.inr ⟨0, by decide, by decide⟩)

set_option maxRecDepth 8000 in
/-- C2 amended: for every source text that fails to compile,
`startStepping` does start a worker thread and returns with the engine
reporting running; no failure is surfaced to the caller before execution
is attempted.  Because the trace hook is still installed when the
worker's except clause calls `traceback.print_exc`, the hook fires
inside the traceback-printing machinery: left to itself (no
`step()`/`stop()`) the worker suspends at the first traceback-internal
line event — that line's StepRecord appended, the captured streams
still empty, the process streams still redirected, and the suspended
state a fixpoint of the worker — so the engine does not fall silently
into Idle.  Only once the controller drives the worker through the
printing does the captured stderr receive the formatted failure trace,
after which the worker restores the streams and exits with the engine
reporting not-running (last conjunct: a concrete driving schedule). -/
theorem c2_amended (out err : Nat) (src : Source) (e : CompileErr)
    (h : src.compileErr = some e) :
    ((startStepping out err src).thread_started = true ∧
     (startStepping out err src).is_running = true) ∧
    ((runA src (startStepping out err src) (List.replicate 12 .wrk)).wloc =
       .tbHookWait 0 ∧
     (runA src (startStepping out err src) (List.replicate 12 .wrk)).is_running = true ∧
     (runA src (startStepping out err src) (List.replicate 12 .wrk)).trace =
       [tracebackModuleLine 0] ∧
     (runA src (startStepping out err src) (List.replicate 12 .wrk)).capturedErr = "" ∧
     (runA src (startStepping out err src) (List.replicate 12 .wrk)).capturedOut = "" ∧
     (runA src (startStepping out err src) (List.replicate 12 .wrk)).sysOut = capOutId ∧
     (runA src (startStepping out err src) (List.replicate 12 .wrk)).sysErr = capErrId ∧
     wstep src (runA src (startStepping out err src) (List.replicate 12 .wrk)) =
       runA src (startStepping out err src) (List.replicate 12 .wrk)) ∧
    ((runA badSrc (startStepping 0 1 badSrc) schedTb).wloc = .wdone ∧
     (runA badSrc (startStepping 0 1 badSrc) schedTb).capturedErr =
       formatTraceback (strOfCompileErr ⟨"invalid syntax", 1⟩) ∧
     (runA badSrc (startStepping 0 1 badSrc) schedTb).is_running = false ∧
     (runA badSrc (startStepping 0 1 badSrc) schedTb).sysOut = 0 ∧
     (runA badSrc (startStepping 0 1 badSrc) schedTb).sysErr = 1) := by
  obtain ⟨stmts, cerr⟩ := src
  simp only [Source.mk.injEq] at h ⊢
  subst h
  exact ⟨⟨rfl, rfl⟩, ⟨rfl, rfl, rfl, rfl, rfl, rfl, rfl, rfl⟩, by decide⟩

/-- C2 amended witness: the theorem applied to a concrete failing
source. -/
theorem c2_amended_witness :
    (((startStepping 0 1 badSrc).thread_started = true ∧
      (startStepping 0 1 badSrc).is_running = true) ∧
     ((runA badSrc (startStepping 0 1 badSrc) (List.replicate 12 .wrk)).wloc =
        .tbHookWait 0 ∧
      (runA badSrc (startStepping 0 1 badSrc) (List.replicate 12 .wrk)).is_running = true ∧
      (runA badSrc (startStepping 0 1 badSrc) (List.replicate 12 .wrk)).trace =
        [tracebackModuleLine 0] ∧
      (runA badSrc (startStepping 0 1 badSrc) (List.replicate 12 .wrk)).capturedErr = "" ∧
      (runA badSrc (startStepping 0 1 badSrc) (List.replicate 12 .wrk)).capturedOut = "" ∧
      (runA badSrc (startStepping 0 1 badSrc) (List.replicate 12 .wrk)).sysOut = capOutId ∧
      (runA badSrc (startStepping 0 1 badSrc) (List.replicate 12 .wrk)).sysErr = capErrId ∧
      wstep badSrc (runA badSrc (startStepping 0 1 badSrc) (List.replicate 12 .wrk)) =
        runA badSrc (startStepping 0 1 badSrc) (List.replicate 12 .wrk)) ∧
     ((runA badSrc (startStepping 0 1 badSrc) schedTb).wloc = .wdone ∧
      (runA badSrc (startStepping 0 1 badSrc) schedTb).capturedErr =
        formatTraceback (strOfCompileErr ⟨"invalid syntax", 1⟩) ∧
      (runA badSrc (startStepping 0 1 badSrc) schedTb).is_running = false ∧
      (runA badSrc (startStepping 0 1 badSrc) schedTb).sysOut = 0 ∧
      (runA badSrc (startStepping 0 1 badSrc) schedTb).sysErr = 1)) :=
  c2_amended 0 1 badSrc ⟨"invalid syntax", 1⟩ rfl

/-- The stream-restoration invariant is preserved by every engine
transition. -/
theorem restoreInv_act (out err : Nat) (src : Source) (s : EState) (a : Act)
    (h : restoreInv out err s) : restoreInv out err (act src s a) := by
  obtain ⟨wl, cl, se, ce, ir, st, ts, tr, co, cerr, so, sy, oo, oe, tlc, sr⟩ := s
  obtain ⟨h1, h2, h3⟩ := h
  cases a with
  | wrk =>
    cases wl with
    | notStarted => exact ⟨h1, h2, h3⟩
    | redirect => exact ⟨h1, h2, fun hp => Bool.noConfusion hp⟩
    | settraceOn => exact ⟨h1, h2, fun hp => Bool.noConfusion hp⟩
    | compileSrc =>
      show restoreInv out err (wstep src _)
      unfold wstep
      cases src.compileErr with
      | some e => exact ⟨h1, h2, fun hp => Bool.noConfusion hp⟩
      | none =>
        by_cases he : src.stmts.isEmpty <;>
          simp only [he, if_true, if_false, Bool.false_eq_true, not_false_eq_true] <;>
          exact ⟨h1, h2, fun hp => Bool.noConfusion hp⟩
    | hookEntry k =>
      cases st <;> exact ⟨h1, h2, fun hp => Bool.noConfusion hp⟩
    | hookAppend k => exact ⟨h1, h2, fun hp => Bool.noConfusion hp⟩
    | hookClearStep k => exact ⟨h1, h2, fun hp => Bool.noConfusion hp⟩
    | hookSetComplete k => exact ⟨h1, h2, fun hp => Bool.noConfusion hp⟩
    | hookWait k =>
      cases se
      · exact ⟨h1, h2, h3⟩
      · exact ⟨h1, h2, fun hp => Bool.noConfusion hp⟩
    | hookClearComplete k => exact ⟨h1, h2, fun hp => Bool.noConfusion hp⟩
    | runStmt k =>
      show restoreInv out err (wstep src _)
      unfold wstep
      by_cases hk : k + 1 < src.stmts.length <;>
        simp only [hk, if_true, if_false, not_false_eq_true] <;>
        exact ⟨h1, h2, fun hp => Bool.noConfusion hp⟩
    | runRest => exact ⟨h1, h2, fun hp => Bool.noConfusion hp⟩
    | tbHookEntry j =>
      cases st <;> exact ⟨h1, h2, fun hp => Bool.noConfusion hp⟩
    | tbHookAppend j => exact ⟨h1, h2, fun hp => Bool.noConfusion hp⟩
    | tbHookClearStep j => exact ⟨h1, h2, fun hp => Bool.noConfusion hp⟩
    | tbHookSetComplete j => exact ⟨h1, h2, fun hp => Bool.noConfusion hp⟩
    | tbHookWait j =>
      cases se
      · exact ⟨h1, h2, h3⟩
      · exact ⟨h1, h2, fun hp => Bool.noConfusion hp⟩
    | tbHookClearComplete j => exact ⟨h1, h2, fun hp => Bool.noConfusion hp⟩
    | tbRunLine j =>
      show restoreInv out err (wstep src _)
      unfold wstep
      by_cases hj : j + 1 < tbLineCount
      · simp only [hj, if_true]
        exact ⟨h1, h2, fun hp => Bool.noConfusion hp⟩
      · simp only [hj, if_false, not_false_eq_true]
        cases src.compileErr <;> exact ⟨h1, h2, fun hp => Bool.noConfusion hp⟩
    | tbRest =>
      show restoreInv out err (wstep src _)
      unfold wstep
      cases src.compileErr <;> exact ⟨h1, h2, fun hp => Bool.noConfusion hp⟩
    | finallyUntrace => exact ⟨h1, h2, fun hp => Bool.noConfusion hp⟩
    | finallyRestore => exact ⟨h1, h2, fun _ => ⟨h1, h2⟩⟩
    | finallySetRunningFalse => exact ⟨h1, h2, fun _ => h3 rfl⟩
    | finallySetComplete => exact ⟨h1, h2, fun _ => h3 rfl⟩
    | wdone => exact ⟨h1, h2, fun _ => h3 rfl⟩
  | ctl =>
    cases cl with
    | cidle => exact ⟨h1, h2, h3⟩
    | sCheck => cases ir <;> exact ⟨h1, h2, h3⟩
    | sSetEvent => exact ⟨h1, h2, h3⟩
    | sWait => cases ce <;> exact ⟨h1, h2, h3⟩
    | cdone r => exact ⟨h1, h2, h3⟩
  | ctlT =>
    cases cl with
    | cidle => exact ⟨h1, h2, h3⟩
    | sCheck => exact ⟨h1, h2, h3⟩
    | sSetEvent => exact ⟨h1, h2, h3⟩
    | sWait => cases ce <;> exact ⟨h1, h2, h3⟩
    | cdone r => exact ⟨h1, h2, h3⟩

/-- The stream-restoration invariant is preserved by every schedule. -/
theorem restoreInv_runA (out err : Nat) (src : Source) (s : EState)
    (sched : List Act) (h : restoreInv out err s) :
    restoreInv out err (runA src s sched) := by
  induction sched generalizing s with
  | nil => exact h
  | cons a t ih =>
    simp only [runA, List.foldl]
    exact ih (act src s a) (restoreInv_act out err src s a h)

/-- C5: on every exit path `execute_code` returns with the process
streams equal to their pre-call values, and a stepping run's worker
restores them by the time it exits (whatever the schedule); capture is
never left installed. -/
theorem c5_streams_restored :
    (∀ (p : Proc) (src : Source), (execute_code p src).2 = p) ∧
    (∀ (out err : Nat) (src : Source) (sched : List Act),
      (runA src (startStepping out err src) sched).wloc = .wdone →
      (runA src (startStepping out err src) sched).sysOut = out ∧
      (runA src (startStepping out err src) sched).sysErr = err) := by
  constructor
  · intro p src; rfl
  · intro out err src sched hdone
    have hinv := restoreInv_runA out err src (startStepping out err src) sched
      ⟨rfl, rfl, fun hp => Bool.noConfusion hp⟩
    exact hinv.2.2 (by rw [hdone]; rfl)

set_option maxRecDepth 8000 in
/-- C5 witness: the batch part applied to a concrete process/source
pair, and the stepping part applied to a schedule that runs the worker
to completion. -/
theorem c5_streams_restored_witness :
    (execute_code procA badSrc).2 = procA ∧
    ((runA badSrc (startStepping 0 1 badSrc) schedTb).sysOut = 0 ∧
     (runA badSrc (startStepping 0 1 badSrc) schedTb).sysErr = 1) :=
  ⟨c5_streams_restored.1 procA badSrc,
   c5_streams_restored.2 0 1 badSrc schedTb (by decide)⟩

/-- Taking one more element of the line list appends the line of the
next statement. -/
theorem take_map_line_succ (src : Source) (k : Nat) (hk : k < src.stmts.length) :
    (src.stmts.map Stmt.line).take (k + 1) =
    (src.stmts.map Stmt.line).take k ++ [lineAt src k] := by
  rw [List.take_succ]
  congr 1
  rw [List.getElem?_map, List.getElem?_eq_getElem hk]
  simp [lineAt, List.getD_eq_getElem?_getD, List.getElem?_eq_getElem hk]

/-- The stepping invariant `InvC1` is preserved by every engine
transition, for a compiling, non-empty source. -/
theorem invC1_act (src : Source) (s : EState) (a : Act)
    (hc : src.compileErr = none) (hne : src.stmts ≠ [])
    (h : InvC1 src s) : InvC1 src (act src s a) := by
  have hN : 1 ≤ src.stmts.length := List.length_pos.mpr hne
  obtain ⟨wl, cl, se, ce, ir, st, ts, tr, co, cerr, so, sy, oo, oe, tlc, sr⟩ := s
  obtain ⟨h1, h2, h3, h4, h5⟩ := h
  simp only at h1
  subst h1
  cases a with
  | wrk =>
    cases wl with
    | notStarted => dsimp only [goodW] at h2
    | redirect =>
      dsimp only [act, wstep, InvC1, acnt, goodW] at h2 h3 h4 h5 ⊢
      exact ⟨rfl, trivial, h3, h4, h5⟩
    | settraceOn =>
      dsimp only [act, wstep, InvC1, acnt, goodW] at h2 h3 h4 h5 ⊢
      exact ⟨rfl, trivial, h3, h4, h5⟩
    | compileSrc =>
      dsimp only [act, wstep, acnt, goodW] at h2 h3 h4 h5 ⊢
      rw [hc]
      have he : src.stmts.isEmpty = false := by simp [List.isEmpty_iff, hne]
      simp only [he, Bool.false_eq_true, if_false]
      dsimp only [InvC1, acnt, goodW]
      exact ⟨rfl, by omega, h3, h4, h5⟩
    | hookEntry k =>
      dsimp only [act, wstep, InvC1, acnt, goodW] at h2 h3 h4 h5 ⊢
      exact ⟨rfl, h2, h3, h4, h5⟩
    | hookAppend k =>
      dsimp only [act, wstep, InvC1, acnt, goodW] at h2 h3 h4 h5 ⊢
      refine ⟨rfl, h2, ?_, fun _ => by omega, fun hp => by have := h5 hp; omega⟩
      rw [take_map_line_succ src k h2, h3]
    | hookClearStep k =>
      dsimp only [act, wstep, InvC1, acnt, goodW] at h2 h3 h4 h5 ⊢
      exact ⟨rfl, h2, h3, fun _ => by omega, h5⟩
    | hookSetComplete k =>
      dsimp only [act, wstep, InvC1, acnt, goodW] at h2 h3 h4 h5 ⊢
      exact ⟨rfl, h2, h3, fun _ => by omega, h5⟩
    | hookWait k =>
      cases se <;> dsimp only [act, wstep, InvC1, acnt, goodW] at h2 h3 h4 h5 ⊢
      · exact ⟨rfl, h2, h3, h4, h5⟩
      · exact ⟨rfl, h2, h3, h4, h5⟩
    | hookClearComplete k =>
      dsimp only [act, wstep, InvC1, acnt, goodW] at h2 h3 h4 h5 ⊢
      exact ⟨rfl, h2, h3, fun hp => Bool.noConfusion hp, h5⟩
    | runStmt k =>
      dsimp only [act, wstep, acnt, goodW] at h2 h3 h4 h5 ⊢
      by_cases hk2 : k + 1 < src.stmts.length
      · rw [if_pos hk2]
        dsimp only [InvC1, acnt, goodW]
        exact ⟨rfl, hk2, h3, h4, h5⟩
      · rw [if_neg hk2]
        dsimp only [InvC1, acnt, goodW]
        have hkN : k + 1 = src.stmts.length := by omega
        refine ⟨rfl, trivial, ?_, ?_, ?_⟩
        · rw [← hkN]; exact h3
        · intro hce; have := h4 hce; omega
        · intro hok; have := h5 hok; omega
    | runRest => dsimp only [goodW] at h2
    | tbHookEntry j => dsimp only [goodW] at h2
    | tbHookAppend j => dsimp only [goodW] at h2
    | tbHookClearStep j => dsimp only [goodW] at h2
    | tbHookSetComplete j => dsimp only [goodW] at h2
    | tbHookWait j => dsimp only [goodW] at h2
    | tbHookClearComplete j => dsimp only [goodW] at h2
    | tbRunLine j => dsimp only [goodW] at h2
    | tbRest => dsimp only [goodW] at h2
    | finallyUntrace =>
      dsimp only [act, wstep, InvC1, acnt, goodW] at h2 h3 h4 h5 ⊢
      exact ⟨rfl, trivial, h3, h4, h5⟩
    | finallyRestore =>
      dsimp only [act, wstep, InvC1, acnt, goodW] at h2 h3 h4 h5 ⊢
      exact ⟨rfl, trivial, h3, h4, h5⟩
    | finallySetRunningFalse =>
      dsimp only [act, wstep, InvC1, acnt, goodW] at h2 h3 h4 h5 ⊢
      exact ⟨rfl, trivial, h3, h4, h5⟩
    | finallySetComplete =>
      dsimp only [act, wstep, InvC1, acnt, goodW] at h2 h3 h4 h5 ⊢
      exact ⟨rfl, trivial, h3, fun _ => hN, h5⟩
    | wdone =>
      dsimp only [act, wstep, InvC1, acnt, goodW] at h2 h3 h4 h5 ⊢
      exact ⟨rfl, h2, h3, h4, h5⟩
  | ctl =>
    cases cl with
    | cidle =>
      dsimp only [act, cstep, InvC1, acnt, goodW] at h2 h3 h4 h5 ⊢
      exact ⟨rfl, h2, h3, h4, fun hp => CLoc.noConfusion hp⟩
    | sCheck =>
      cases ir <;> dsimp only [act, cstep, InvC1, acnt, goodW] at h2 h3 h4 h5 ⊢
      · exact ⟨rfl, h2, h3, h4, fun hp => CDone.noConfusion (CLoc.cdone.inj hp)⟩
      · exact ⟨rfl, h2, h3, h4, fun hp => CLoc.noConfusion hp⟩
    | sSetEvent =>
      dsimp only [act, cstep, InvC1, acnt, goodW] at h2 h3 h4 h5 ⊢
      exact ⟨rfl, h2, h3, h4, fun hp => CLoc.noConfusion hp⟩
    | sWait =>
      cases ce <;> dsimp only [act, cstep, InvC1, acnt, goodW] at h2 h3 h4 h5 ⊢
      · exact ⟨rfl, h2, h3, h4, h5⟩
      · exact ⟨rfl, h2, h3, h4, fun _ => h4 rfl⟩
    | cdone r =>
      dsimp only [act, cstep, InvC1, acnt, goodW] at h2 h3 h4 h5 ⊢
      exact ⟨rfl, h2, h3, h4, fun hp => CLoc.noConfusion hp⟩
  | ctlT =>
    cases cl with
    | cidle =>
      dsimp only [act, ctimeout, InvC1, acnt, goodW] at h2 h3 h4 h5 ⊢
      exact ⟨rfl, h2, h3, h4, h5⟩
    | sCheck =>
      dsimp only [act, ctimeout, InvC1, acnt, goodW] at h2 h3 h4 h5 ⊢
      exact ⟨rfl, h2, h3, h4, h5⟩
    | sSetEvent =>
      dsimp only [act, ctimeout, InvC1, acnt, goodW] at h2 h3 h4 h5 ⊢
      exact ⟨rfl, h2, h3, h4, h5⟩
    | sWait =>
      cases ce <;> dsimp only [act, ctimeout, InvC1, acnt, goodW] at h2 h3 h4 h5 ⊢
      · exact ⟨rfl, h2, h3, h4, fun hp => CDone.noConfusion (CLoc.cdone.inj hp)⟩
      · exact ⟨rfl, h2, h3, h4, h5⟩
    | cdone r =>
      dsimp only [act, ctimeout, InvC1, acnt, goodW] at h2 h3 h4 h5 ⊢
      exact ⟨rfl, h2, h3, h4, h5⟩

/-- The stepping invariant is preserved by every schedule. -/
theorem invC1_runA (src : Source) (s : EState) (sched : List Act)
    (hc : src.compileErr = none) (hne : src.stmts ≠ [])
    (h : InvC1 src s) : InvC1 src (runA src s sched) := by
  induction sched generalizing s with
  | nil => exact h
  | cons a t ih =>
    simp only [runA, List.foldl]
    exact ih (act src s a) (invC1_act src s a hc hne h)

/-- The stepping invariant holds right after `startStepping`. -/
theorem invC1_start (out err : Nat) (src : Source) :
    InvC1 src (startStepping out err src) :=
  ⟨rfl, trivial, rfl, fun hp => Bool.noConfusion hp, fun hp => CLoc.noConfusion hp⟩

/-- C1 amended: because `step()` never clears the completion event
before waiting, a stale "suspended" signal from an earlier suspension
can satisfy its wait; what a non-timed-out `step()` return does
guarantee is only that the worker has appended the record of at least
its first suspension point: the snapshot's trace is non-empty and lists,
in execution order, exactly the suspension points begun so far (a prefix
of the program's line list) — not necessarily a record appended during
this call, and not necessarily the record of a suspension point the
worker reached in response to it. -/
theorem c1_amended (out err : Nat) (src : Source) (sched : List Act) (s : EState)
    (hc : src.compileErr = none) (hne : src.stmts ≠ [])
    (hs : s = runA src (startStepping out err src) sched)
    (hok : s.cloc = .cdone .ok) :
    s.trace ≠ [] ∧ ∃ t, s.trace ++ t = src.stmts.map Stmt.line := by
  subst hs
  have hN : 1 ≤ src.stmts.length := List.length_pos.mpr hne
  obtain ⟨-, -, h3, -, h5⟩ :=
    invC1_runA src (startStepping out err src) sched hc hne (invC1_start out err src)
  have hk := h5 hok
  constructor
  · intro hnil
    rw [h3] at hnil
    have hlen := congrArg List.length hnil
    simp only [List.length_take, List.length_map, List.length_nil] at hlen
    omega
  · refine ⟨(src.stmts.map Stmt.line).drop
      (acnt src.stmts.length (runA src (startStepping out err src) sched).wloc), ?_⟩
    rw [h3]
    exact List.take_append_drop _ _

/-- C1 amended witness: the theorem applied to a schedule in which a
`step()` call has just returned without timing out. -/
theorem c1_amended_witness :
    (runA twoLineSrc (startStepping 0 1 twoLineSrc) schedC).trace ≠ [] ∧
    ∃ t, (runA twoLineSrc (startStepping 0 1 twoLineSrc) schedC).trace ++ t =
      twoLineSrc.stmts.map Stmt.line :=
  c1_amended 0 1 twoLineSrc schedC _ rfl (by decide) rfl (by decide)

/-- After `startStepping` of a compiling, non-empty source, a worker
burst reaches the first suspension: the hook has appended the record of
statement 0 and blocks on the proceed event. -/
theorem wrunStart (out err : Nat) (a : Stmt) (rest : List Stmt) :
    wrun ⟨a :: rest, none⟩ (startStepping out err ⟨a :: rest, none⟩) =
    midState out err ⟨a :: rest, none⟩ 0 := rfl

/-- A settled `step()` call from suspension `k` releases exactly one
statement: the worker appends the record of statement `k + 1` and
suspends there. -/
theorem stepCallQ_mid (out err : Nat) (src : Source) (k : Nat)
    (hk : k + 1 < src.stmts.length) :
    stepCallQ src (midState out err src k) = midState out err src (k + 1) := by
  have htr := take_map_line_succ src (k + 1) hk
  have hmin : min (k + 1) src.stmts.length = k + 1 := by omega
  simp [stepCallQ, wrun, ctlCall, cstep, wstep, midState, hk, htr, hmin,
    List.length_take, List.length_map]

/-- The settled `step()` call from the last suspension lets the worker
run its final statement and exit: streams restored, running flag
cleared, completion event left set by the `finally` block. -/
theorem stepCallQ_end (out err : Nat) (src : Source) (k : Nat)
    (hk : k + 1 = src.stmts.length) :
    stepCallQ src (midState out err src k) = endState out err src := by
  have hnot : ¬ (k + 1 < src.stmts.length) := by omega
  have htake : (src.stmts.map Stmt.line).take (k + 1) = src.stmts.map Stmt.line := by
    rw [show k + 1 = (src.stmts.map Stmt.line).length by simp [List.length_map, hk]]
    exact List.take_length _
  have hmin : min (k + 1) src.stmts.length = k + 1 := by omega
  simp [stepCallQ, wrun, ctlCall, cstep, wstep, midState, endState, hnot, htake,
    hmin, hk, List.length_take, List.length_map]

/-- C3 amended: the length-`N` / not-running part of the claim holds
under the quiescent schedule — the worker allowed to settle after
`startStepping` and after each `step()` call — rather than after any
`N` completed `step()` calls (the counterexample shows back-to-back
calls can be satisfied by a stale completion event, leaving the trace
short and the engine running).  Under the quiescent schedule, after
exactly `N` `step()` calls the trace lists the `N` statement lines in
execution order (hence non-decreasing for a branch-free program), and
the worker has exited with the engine reporting not-running. -/
theorem c3_amended (out err : Nat) (src : Source)
    (hc : src.compileErr = none)
    (hsorted : (src.stmts.map Stmt.line).Chain' (· < ·)) :
    (quiescentExec out err src src.stmts.length).trace = src.stmts.map Stmt.line ∧
    (quiescentExec out err src src.stmts.length).trace.length = src.stmts.length ∧
    (quiescentExec out err src src.stmts.length).trace.Chain' (· ≤ ·) ∧
    (quiescentExec out err src src.stmts.length).is_running = false ∧
    (quiescentExec out err src src.stmts.length).wloc = .wdone := by
  obtain ⟨stmts, cerr⟩ := src
  simp only at hc
  subst hc
  cases stmts with
  | nil =>
    exact ⟨rfl, rfl, List.chain'_nil, rfl, rfl⟩
  | cons a rest =>
    have key : ∀ k, k + 1 ≤ rest.length + 1 →
        quiescentExec out err ⟨a :: rest, none⟩ k =
        midState out err ⟨a :: rest, none⟩ k := by
      intro k
      induction k with
      | zero => intro _; exact wrunStart out err a rest
      | succ n ih =>
        intro hn1
        show stepCallQ _ (quiescentExec out err _ n) = _
        rw [ih (by omega)]
        exact stepCallQ_mid out err _ n (by simp; omega)
    have hfin : quiescentExec out err ⟨a :: rest, none⟩ (rest.length + 1) =
        endState out err ⟨a :: rest, none⟩ := by
      show stepCallQ _ (quiescentExec out err _ rest.length) = _
      rw [key rest.length (by omega)]
      exact stepCallQ_end out err _ rest.length (by simp)
    have hlen : ({ stmts := a :: rest, compileErr := none } : Source).stmts.length =
        rest.length + 1 := rfl
    rw [hlen, hfin]
    refine ⟨rfl, by simp [endState, List.length_map], ?_, rfl, rfl⟩
    exact List.Chain'.imp (fun x y h => le_of_lt h) hsorted

/-- C3 amended witness: the theorem applied to the concrete two-line
program. -/
theorem c3_amended_witness :
    (quiescentExec 0 1 twoLineSrc twoLineSrc.stmts.length).trace =
      twoLineSrc.stmts.map Stmt.line ∧
    (quiescentExec 0 1 twoLineSrc twoLineSrc.stmts.length).trace.length =
      twoLineSrc.stmts.length ∧
    (quiescentExec 0 1 twoLineSrc twoLineSrc.stmts.length).trace.Chain' (· ≤ ·) ∧
    (quiescentExec 0 1 twoLineSrc twoLineSrc.stmts.length).is_running = false ∧
    (quiescentExec 0 1 twoLineSrc twoLineSrc.stmts.length).wloc = .wdone :=
  c3_amended 0 1 twoLineSrc rfl (by norm_num [twoLineSrc, List.chain'_cons])


/-- The second loop of `_highlight_bytecode_for_line`, run from an
arbitrary accumulator, returns the first instruction of the greatest
positive starting line at most `line` that beats the accumulator, and
the fallback offset otherwise. -/
theorem scan_eq (line : Nat) (l : List Instr) : ∀ (p : Nat) (b : Option Nat),
    (l.foldl (highlightScan line) (p, b)).2 =
      (match nearestPreceding l line with
       | none => b
       | some (m, o) => if p < m then some o else b) := by
  induction l with
  | nil => intro p b; rfl
  | cons i rest ih =>
    intro p b
    cases hsl : i.starts_line with
    | none =>
      simp only [List.foldl, highlightScan, hsl, nearestPreceding]
      exact ih p b
    | some sl =>
      by_cases hcand : 0 < sl ∧ sl ≤ line
      · by_cases hp : p < sl
        · have hcond : p < sl ∧ sl ≤ line := ⟨hp, hcand.2⟩
          simp only [List.foldl, highlightScan, hsl, if_pos hcond]
          rw [ih sl (some i.offset)]
          simp only [nearestPreceding, hsl, if_pos hcand]
          cases hr : nearestPreceding rest line with
          | none => simp [hp]
          | some mo =>
            obtain ⟨m, o⟩ := mo
            by_cases hm : m ≤ sl
            · simp only [if_pos hm]
              simp [Nat.not_lt.mpr hm, hp]
            · simp only [if_neg hm]
              have hlt : sl < m := Nat.lt_of_not_le hm
              simp [hlt, Nat.lt_trans hp hlt]
        · have hcond : ¬ (p < sl ∧ sl ≤ line) := fun hh => hp hh.1
          simp only [List.foldl, highlightScan, hsl, if_neg hcond]
          rw [ih p b]
          simp only [nearestPreceding, hsl, if_pos hcand]
          cases hr : nearestPreceding rest line with
          | none => simp [hp]
          | some mo =>
            obtain ⟨m, o⟩ := mo
            by_cases hm : m ≤ sl
            · have hnm : ¬ p < m := by omega
              simp [hp, hnm, hm]
            · simp [hm]
      · have hcond : ¬ (p < sl ∧ sl ≤ line) := by
          intro hh
          exact hcand ⟨by omega, hh.2⟩
        simp only [List.foldl, highlightScan, hsl, if_neg hcond]
        rw [ih p b]
        simp only [nearestPreceding, hsl, if_neg hcand]

/-- A nearest-preceding result is always a positive line at most the
reported line. -/
theorem nearestPreceding_pos (l : List Instr) (line : Nat) :
    ∀ m o, nearestPreceding l line = some (m, o) → 0 < m ∧ m ≤ line := by
  induction l with
  | nil => intro m o h; exact Option.noConfusion h
  | cons i rest ih =>
    intro m o h
    cases hsl : i.starts_line with
    | none =>
      simp only [nearestPreceding, hsl] at h
      exact ih m o h
    | some sl =>
      simp only [nearestPreceding, hsl] at h
      by_cases hcand : 0 < sl ∧ sl ≤ line
      · rw [if_pos hcand] at h
        cases hr : nearestPreceding rest line with
        | none =>
          rw [hr] at h
          obtain ⟨hm, -⟩ := Prod.mk.injEq .. ▸ Option.some.inj h
          exact hm ▸ hcand
        | some mo =>
          obtain ⟨m', o'⟩ := mo
          rw [hr] at h
          dsimp only at h
          by_cases hm : m' ≤ sl
          · rw [if_pos hm] at h
            obtain ⟨hm2, -⟩ := Prod.mk.injEq .. ▸ Option.some.inj h
            exact hm2 ▸ hcand
          · rw [if_neg hm] at h
            obtain ⟨hm2, -⟩ := Prod.mk.injEq .. ▸ Option.some.inj h
            exact hm2 ▸ ih m' o' hr
      · rw [if_neg hcand] at h
        exact ih m o h

/-- C7 amended: the controller's line-to-instruction mapping is a pure
function that highlights the offset of the first instruction whose
starting line equals the reported line exactly, and otherwise the first
instruction of the nearest preceding positive starting line — with no
tolerance bound: arbitrarily distant preceding lines are still
highlighted (the counterexample shows no finite window matches the
code). -/
theorem c7_amended (instrs : List Instr) (line : Nat) :
    highlight_bytecode_for_line instrs line = specHighlight instrs line := by
  unfold highlight_bytecode_for_line specHighlight
  cases he : instrs.isEmpty with
  | true =>
    have : instrs = [] := List.isEmpty_iff.mp he
    subst this
    simp [nearestPreceding, List.find?]
  | false =>
    simp only [Bool.false_eq_true, if_false]
    cases hf : instrs.find? (fun i => i.starts_line == some line) with
    | some i => rfl
    | none =>
      rw [scan_eq line instrs 0 none]
      cases hr : nearestPreceding instrs line with
      | none => rfl
      | some mo =>
        obtain ⟨m, o⟩ := mo
        have hm := (nearestPreceding_pos instrs line m o hr).1
        simp [hm]
